import Mathlib

/-!
Shallow embedding of the SChannel TLS session stream adapter from
`src/src/SSL.c` (the `CC_BUILD_SCHANNEL` backend, lines 79-419).

External collaborators are modelled as oracle response traces consumed in
program order:
* `Socket_Read` / `Socket_Write` (the Transport) become lists of `TRead` /
  `TWrite` responses;
* `FP_DecryptMessage` becomes a list of `DecryptResult` responses;
* `FP_EncryptMessage` becomes a function from the plaintext chunk to an
  `EncResult`;
* the handshake calls to `FP_InitializeSecurityContextA` become a list of
  `HSResp` responses.

A modelled operation returns `none` either when a trace runs out (the
blocking C call would simply not return) or when an oracle entry violates
the documented contract of the underlying API (for example `Socket_Read`
claiming to have filled more bytes than the space it was offered), which
cannot arise from the real API.  All claims are therefore stated over
executions that produce `some` result.
-/

/-- Bytes are modelled as natural numbers; only lengths and positions of
bytes matter to the adapter, never arithmetic on their values. -/
abbrev Byte := Nat

/-- `TLS_MAX_PACKET_SIZE` from SSL.c line 21: `16384 + 512`, the fixed
capacity of the `incoming` scratch array. -/
def TLS_MAX_PACKET_SIZE : Nat := 16384 + 512

/-- Modelled from the spec: `Errors.h` is not under `src/`.  The adapter
returns `ERR_END_OF_STREAM` for the distinct connection-closed condition
(spec section 4.2).  Only its being nonzero (0 is success) and distinct
from `ERR_INVALID_ARGUMENT` is relied upon; the numeric value is arbitrary. -/
def ERR_END_OF_STREAM : Nat := 57

/-- Modelled from the spec: `Errors.h` is not under `src/`.
`ERR_INVALID_ARGUMENT` is the code SSL.c returns for the spec's
`ProtocolViolation` (scratch buffer full without a complete record).
Only its being nonzero and distinct from `ERR_END_OF_STREAM` is relied
upon; the numeric value is arbitrary. -/
def ERR_INVALID_ARGUMENT : Nat := 55

/-- The negotiated limits recorded at handshake completion
(`SecPkgContext_StreamSizes sizes` in `struct SSLContext`). -/
structure StreamSizes where
  cbHeader : Nat
  cbTrailer : Nat
  cbMaximumMessage : Nat
deriving DecidableEq

/-- The adapter-visible fields of `struct SSLContext` (SSL.c lines 79-90).
`incoming` is the filled prefix of the fixed scratch array, so
`incoming.length` is the C field `bufferLen`; the capacity bound
`bufferLen <= TLS_MAX_PACKET_SIZE` is the invariant to be proved, not a
type-level restriction.  `decryptedData` models the C pointer/length pair
`decryptedData` / `decryptedSize` as the plaintext bytes the pointer still
exposes, `none` for the NULL pointer (`decryptedSize` is then 0, as after
`Mem_TryAllocCleared`).  DecryptMessage rewrites the header/plaintext
region of `incoming` in place; the model keeps `incoming` as the received
ciphertext and carries the plaintext separately, which agrees with the C
state on the only region ever reused afterwards: the trailing `leftover`
bytes, which DecryptMessage does not touch. -/
structure SSLContext where
  sizes : StreamSizes
  leftover : Nat
  decryptedData : Option (List Byte)
  incoming : List Byte
deriving DecidableEq

/-- The zeroed session produced by `Mem_TryAllocCleared` in `SSL_Init`. -/
def SSL_initialCtx : SSLContext :=
  { sizes := ⟨0, 0, 0⟩, leftover := 0, decryptedData := none, incoming := [] }

/-- One `Socket_Write` response: the result code and the byte count the
socket accepted (`*sent`). -/
structure TWrite where
  res : Nat
  sent : Nat
deriving DecidableEq

/-- One `Socket_Read` response: the result code and the bytes the socket
delivered (`*read` is their count). -/
structure TRead where
  res : Nat
  bytes : List Byte
deriving DecidableEq

/-- `SSL_SendRaw` (SSL.c lines 107-120): loop calling `Socket_Write` until
all `count` bytes are accepted.  Returns `(result, total bytes handed to
successful socket calls, remaining trace)`.  A response claiming to have
sent more than the `count` it was offered has no C counterpart
(`Socket_Write` reports at most the length passed in), so the model
rejects the trace with `none`; an exhausted trace (the blocking call
would not return) is also `none`. -/
def SSL_SendRaw : Nat → List TWrite → Option (Nat × Nat × List TWrite)
  | 0, wt => some (0, 0, wt)
  | _ + 1, [] => none
  | count + 1, w :: rest =>
    if w.res ≠ 0 then some (w.res, 0, rest)
    else if w.sent = 0 then some (ERR_END_OF_STREAM, 0, rest)
    else if w.sent ≤ count + 1 then
      (SSL_SendRaw (count + 1 - w.sent) rest).map (fun o => (o.1, w.sent + o.2.1, o.2.2))
    else none

/-- `SSL_RecvRaw` (SSL.c lines 122-137): if the scratch buffer is already
full, fail with `ERR_INVALID_ARGUMENT` before touching the Transport;
otherwise one `Socket_Read` into the free space.  A response delivering
more bytes than the free space offered (`sizeof(ctx->incoming) -
ctx->bufferLen`) has no C counterpart, so the model rejects the trace. -/
def SSL_RecvRaw (ctx : SSLContext) (tt : List TRead) :
    Option (Nat × SSLContext × List TRead) :=
  if ctx.incoming.length = TLS_MAX_PACKET_SIZE then
    some (ERR_INVALID_ARGUMENT, ctx, tt)
  else
    match tt with
    | [] => none
    | t :: rest =>
      if t.res ≠ 0 then some (t.res, ctx, rest)
      else if t.bytes.length = 0 then some (ERR_END_OF_STREAM, ctx, rest)
      else if t.bytes.length ≤ TLS_MAX_PACKET_SIZE - ctx.incoming.length then
        some (0, { ctx with incoming := ctx.incoming ++ t.bytes }, rest)
      else none

/-- `SSL_ReadDecrypted` (SSL.c lines 288-309): serve `min(count,
decryptedSize)` bytes from the plaintext window.  On exact drain
(`len == decryptedSize`) the `leftover` undecrypted bytes — the last
`leftover` bytes of the filled region — are moved to the front of the
scratch buffer (`memmove`), the fill length becomes `leftover`,
`leftover` is reset to 0 and the window is cleared; otherwise the window
slides forward by `len`.  Returns the bytes copied to the caller (the C
result code is always 0). -/
def SSL_ReadDecrypted (ctx : SSLContext) (count : Nat) : List Byte × SSLContext :=
  let w := ctx.decryptedData.getD []
  let len := min count w.length
  if len = w.length then
    (w.take len,
      { ctx with
        incoming := ctx.incoming.drop (ctx.incoming.length - ctx.leftover),
        leftover := 0,
        decryptedData := none })
  else
    (w.take len, { ctx with decryptedData := some (w.drop len) })

/-- One `FP_DecryptMessage` response (SSL.c lines 337-351): `ok plain
extraLen` is `SEC_E_OK` with `plain` the content buffer (`buffers[1]`)
and `extraLen` the byte count of a `SECBUFFER_EXTRA` buffer (0 when
absent); `incomplete` is `SEC_E_INCOMPLETE_MESSAGE`; `fail code` any
other status. -/
inductive DecryptResult
  | ok (plain : List Byte) (extraLen : Nat)
  | incomplete
  | fail (code : Nat)
deriving DecidableEq

/-- The result a modelled call hands back to the caller of `SSL_Read`:
the C return value, the bytes copied into the caller's buffer (`*read`
is their count), the updated session, and the unconsumed oracle traces. -/
structure ReadOut where
  res : Nat
  data : List Byte
  ctx : SSLContext
  et : List DecryptResult
  tt : List TRead
deriving DecidableEq

/-- The `for (;;)` loop of `SSL_Read` (SSL.c lines 321-357): if any
ciphertext is buffered, try one `FP_DecryptMessage`; on `SEC_E_OK`
install the plaintext window and `leftover` and serve via
`SSL_ReadDecrypted`; on any status other than `SEC_E_INCOMPLETE_MESSAGE`
return it; otherwise (and when the buffer is empty) refill with
`SSL_RecvRaw` and retry.  The fuel argument only pays for loop
iterations; every iteration consumes at least one trace entry, so the
fuel chosen by `SSL_Read` never runs out before a missing trace entry
would return `none` anyway.  An `ok` response whose `SECBUFFER_EXTRA`
count exceeds the input length has no C counterpart (the extra buffer is
a trailing sub-buffer of the input), so the model rejects the trace. -/
def SSL_ReadLoop : Nat → SSLContext → Nat → List DecryptResult → List TRead → Option ReadOut
  | 0, _, _, _, _ => none
  | fuel + 1, ctx, count, et, tt =>
    if ctx.incoming.length ≠ 0 then
      match et with
      | [] => none
      | DecryptResult.ok plain extraLen :: et' =>
        if extraLen ≤ ctx.incoming.length then
          let ctx1 := { ctx with decryptedData := some plain, leftover := extraLen }
          let served := SSL_ReadDecrypted ctx1 count
          some ⟨0, served.1, served.2, et', tt⟩
        else none
      | DecryptResult.fail code :: et' => some ⟨code, [], ctx, et', tt⟩
      | DecryptResult.incomplete :: et' =>
        match SSL_RecvRaw ctx tt with
        | none => none
        | some (res, ctx', tt') =>
          if res ≠ 0 then some ⟨res, [], ctx', et', tt'⟩
          else SSL_ReadLoop fuel ctx' count et' tt'
    else
      match SSL_RecvRaw ctx tt with
      | none => none
      | some (res, ctx', tt') =>
        if res ≠ 0 then some ⟨res, [], ctx', et, tt'⟩
        else SSL_ReadLoop fuel ctx' count et tt'

/-- `SSL_Read` (SSL.c lines 311-359): serve leftover decrypted data from
a previous call if the window pointer is non-NULL, else run the
decrypt/refill loop. -/
def SSL_Read (ctx : SSLContext) (count : Nat) (et : List DecryptResult) (tt : List TRead) :
    Option ReadOut :=
  match ctx.decryptedData with
  | some _ =>
    let served := SSL_ReadDecrypted ctx count
    some ⟨0, served.1, served.2, et, tt⟩
  | none => SSL_ReadLoop (et.length + tt.length + 1) ctx count et tt

/-- One `FP_EncryptMessage` response for a chunk: `ok hdr cipher trl` is
success with the three in-place regions (`SECBUFFER_STREAM_HEADER`,
`SECBUFFER_DATA`, `SECBUFFER_STREAM_TRAILER`) as rewritten, whose
`cbBuffer` sums give the record length; `fail code` is a nonzero status
(in C the failure branch `if ((res = FP_EncryptMessage(..)))` is taken
exactly when the status is nonzero). -/
inductive EncResult
  | ok (hdr cipher trl : List Byte)
  | fail (code : Nat)
deriving DecidableEq

/-- The contiguous header+ciphertext+trailer record a successful
encryption of `chunk` produces, `none` when the engine fails on it. -/
def encRecord (enc : List Byte → EncResult) (chunk : List Byte) : Option (List Byte) :=
  match enc chunk with
  | EncResult.ok h c t => some (h ++ c ++ t)
  | EncResult.fail _ => none

/-- `SSL_WriteChunk` (SSL.c lines 361-392): lay the chunk out between the
header and trailer reservations, encrypt in place, and send the three
now-contiguous buffers as one `SSL_SendRaw` of `total` bytes.  Returns
`(result, records handed to SSL_SendRaw, remaining write trace)`. -/
def SSL_WriteChunk (enc : List Byte → EncResult) (chunk : List Byte) (wt : List TWrite) :
    Option (Nat × List (List Byte) × List TWrite) :=
  match enc chunk with
  | EncResult.fail code => some (code, [], wt)
  | EncResult.ok h c t =>
    let rcd := h ++ c ++ t
    (SSL_SendRaw rcd.length wt).map (fun o => (o.1, [rcd], o.2.2))

/-- The result a modelled call hands back to the caller of `SSL_Write`:
the C return value, `*wrote`, the plaintext chunks passed to
`SSL_WriteChunk` in order, the records handed to `SSL_SendRaw` in order,
the session (which `SSL_Write` never mutates) and the unconsumed write
trace. -/
structure WriteOut where
  res : Nat
  wrote : Nat
  chunks : List (List Byte)
  records : List (List Byte)
  ctx : SSLContext
  wt : List TWrite
deriving DecidableEq

/-- The `while (count)` loop of `SSL_Write` (SSL.c lines 400-408): peel
off `min(count, sizes.cbMaximumMessage)` bytes, `SSL_WriteChunk` them,
accumulate `*wrote` after each successful chunk (the C local `len` is
written out as `min data.length ctx.sizes.cbMaximumMessage` at each of
its uses).  Fuel pays for loop
iterations; `SSL_Write` passes `data.length`, which suffices whenever
`cbMaximumMessage >= 1` (each iteration then consumes at least one
byte).  With `cbMaximumMessage = 0` and data pending the C loop never
terminates, and the model correspondingly returns `none` rather than
success. -/
def SSL_WriteLoop : Nat → SSLContext → (List Byte → EncResult) → List Byte → List TWrite → Option WriteOut
  | 0, ctx, _, data, wt =>
    if data = [] then some ⟨0, 0, [], [], ctx, wt⟩ else none
  | fuel + 1, ctx, enc, data, wt =>
    if data = [] then some ⟨0, 0, [], [], ctx, wt⟩
    else
      match SSL_WriteChunk enc (data.take (min data.length ctx.sizes.cbMaximumMessage)) wt with
      | none => none
      | some (res, recs, wt') =>
        if res ≠ 0 then
          some ⟨res, 0, [data.take (min data.length ctx.sizes.cbMaximumMessage)], recs, ctx, wt'⟩
        else
          match SSL_WriteLoop fuel ctx enc
              (data.drop (min data.length ctx.sizes.cbMaximumMessage)) wt' with
          | none => none
          | some o =>
            some ⟨o.res, min data.length ctx.sizes.cbMaximumMessage + o.wrote,
              data.take (min data.length ctx.sizes.cbMaximumMessage) :: o.chunks,
              recs ++ o.records, o.ctx, o.wt⟩

/-- `SSL_Write` (SSL.c lines 394-410). -/
def SSL_Write (ctx : SSLContext) (enc : List Byte → EncResult) (data : List Byte)
    (wt : List TWrite) : Option WriteOut :=
  SSL_WriteLoop data.length ctx enc data wt

/-- The status component of one `FP_InitializeSecurityContextA` response
during `SSL_Negotiate`: `SEC_E_OK`, `SEC_I_CONTINUE_NEEDED`,
`SEC_E_INCOMPLETE_MESSAGE`, or any other (failing) status. -/
inductive HSStatus
  | ok
  | continueNeeded
  | incomplete
  | fail (code : Nat)
deriving DecidableEq

/-- One handshake-step response (SSL.c lines 204-216): the status, the
produced output token (`out_buffers[0]`), and `extra = some n` when
`in_buffers[1]` came back as `SECBUFFER_EXTRA` holding `n` bytes. -/
structure HSResp where
  status : HSStatus
  output : List Byte
  extra : Option Nat
deriving DecidableEq

/-- The leftover handling after each handshake step (SSL.c lines
207-216): on `SECBUFFER_EXTRA` move the last `n` bytes of the buffer to
the front and set the fill to `n`; otherwise, unless the status was
`SEC_E_INCOMPLETE_MESSAGE`, the whole input was consumed and the fill
resets to 0.  An `extra` count exceeding the fill has no C counterpart
(the extra buffer is a trailing sub-buffer of the input), so the model
rejects the trace. -/
def SSL_NegotiateShift (ctx : SSLContext) (r : HSResp) : Option SSLContext :=
  match r.extra with
  | some n =>
    if n ≤ ctx.incoming.length then
      some { ctx with incoming := ctx.incoming.drop (ctx.incoming.length - n) }
    else none
  | none =>
    if r.status = HSStatus.incomplete then some ctx
    else some { ctx with incoming := [] }

/-- The result a modelled call hands back to the caller of
`SSL_Negotiate`. -/
structure NegotiateOut where
  res : Nat
  ctx : SSLContext
  hs : List HSResp
  tt : List TRead
  wt : List TWrite
deriving DecidableEq

/-- The `for (;;)` loop of `SSL_Negotiate` (SSL.c lines 179-236): one
engine step per iteration, then leftover handling; `SEC_E_OK` records the
negotiated sizes (`FP_QueryContextAttributesA`, modelled as the `sizes`
argument) and exits; `SEC_I_CONTINUE_NEEDED` transmits the output token
fully before looping; any other non-`SEC_E_INCOMPLETE_MESSAGE` status
aborts; `SEC_E_INCOMPLETE_MESSAGE` refills via `SSL_RecvRaw`. -/
def SSL_NegotiateLoop (sizes : StreamSizes) :
    List HSResp → SSLContext → List TRead → List TWrite → Option NegotiateOut
  | [], _, _, _ => none
  | r :: hs', ctx, tt, wt =>
    match SSL_NegotiateShift ctx r with
    | none => none
    | some ctx1 =>
      match r.status with
      | HSStatus.ok => some ⟨0, { ctx1 with sizes := sizes }, hs', tt, wt⟩
      | HSStatus.continueNeeded =>
        match SSL_SendRaw r.output.length wt with
        | none => none
        | some (res, _, wt') =>
          if res ≠ 0 then some ⟨res, ctx1, hs', tt, wt'⟩
          else SSL_NegotiateLoop sizes hs' ctx1 tt wt'
      | HSStatus.fail code => some ⟨code, ctx1, hs', tt, wt⟩
      | HSStatus.incomplete =>
        match SSL_RecvRaw ctx1 tt with
        | none => none
        | some (res, ctx2, tt') =>
          if res ≠ 0 then some ⟨res, ctx2, hs', tt', wt⟩
          else SSL_NegotiateLoop sizes hs' ctx2 tt' wt

/-- Counters for the teardown calls `SSL_Free` makes:
`FP_DeleteSecurityContext`, `FP_FreeCredentialsHandle`, `Mem_Free`. -/
structure FreeEffects where
  deleteContextCalls : Nat
  freeCredentialsCalls : Nat
  memFreeCalls : Nat
deriving DecidableEq

/-- `SSL_Free` (SSL.c lines 412-419): unconditionally delete the security
context, free the credentials handle and free the session memory, then
return 0.  There is no guard field in `struct SSLContext` and no check of
any kind, so each call performs the teardown sequence again. -/
def SSL_Free (fx : FreeEffects) : Nat × FreeEffects :=
  (0, { deleteContextCalls := fx.deleteContextCalls + 1,
        freeCredentialsCalls := fx.freeCredentialsCalls + 1,
        memFreeCalls := fx.memFreeCalls + 1 })

/-- One public operation on a session, with the oracle traces that drive
it. -/
inductive Op
  | read (count : Nat) (et : List DecryptResult) (tt : List TRead)
  | write (enc : List Byte → EncResult) (data : List Byte) (wt : List TWrite)
  | negotiate (sizes : StreamSizes) (hs : List HSResp) (tt : List TRead) (wt : List TWrite)

/-- Run one operation, keeping only the resulting session state. -/
def runOp (ctx : SSLContext) : Op → Option SSLContext
  | Op.read count et tt => (SSL_Read ctx count et tt).map (fun o => o.ctx)
  | Op.write enc data wt => (SSL_Write ctx enc data wt).map (fun o => o.ctx)
  | Op.negotiate sizes hs tt wt => (SSL_NegotiateLoop sizes hs ctx tt wt).map (fun o => o.ctx)

/-- Run a sequence of operations from a starting state. -/
def runOps (ctx : SSLContext) : List Op → Option SSLContext
  | [] => some ctx
  | op :: ops =>
    match runOp ctx op with
    | none => none
    | some ctx' => runOps ctx' ops

/-! ### Helper lemmas -/

/-- Both branches of `SSL_ReadDecrypted` copy the same bytes to the
caller: the first `min(count, decryptedSize)` bytes of the window. -/
theorem SSL_ReadDecrypted_fst (ctx : SSLContext) (count : Nat) :
    (SSL_ReadDecrypted ctx count).1 =
      (ctx.decryptedData.getD []).take (min count (ctx.decryptedData.getD []).length) := by
  simp only [SSL_ReadDecrypted]
  split <;> rfl

/-- `SSL_ReadDecrypted` never lengthens the scratch buffer. -/
theorem SSL_ReadDecrypted_len (ctx : SSLContext) (count : Nat) :
    (SSL_ReadDecrypted ctx count).2.incoming.length ≤ ctx.incoming.length := by
  simp only [SSL_ReadDecrypted]
  split
  · simp only [List.length_drop]
    omega
  · simp

/-- `SSL_RecvRaw` keeps the fill length within capacity. -/
theorem SSL_RecvRaw_len (ctx : SSLContext) (tt : List TRead) (res : Nat)
    (ctx' : SSLContext) (tt' : List TRead)
    (hc : ctx.incoming.length ≤ TLS_MAX_PACKET_SIZE)
    (h : SSL_RecvRaw ctx tt = some (res, ctx', tt')) :
    ctx'.incoming.length ≤ TLS_MAX_PACKET_SIZE := by
  unfold SSL_RecvRaw at h
  split at h
  · simp only [Option.some.injEq, Prod.mk.injEq] at h
    obtain ⟨-, h2, -⟩ := h
    exact h2 ▸ hc
  · split at h
    · exact absurd h (by simp)
    · split at h
      · simp only [Option.some.injEq, Prod.mk.injEq] at h
        obtain ⟨-, h2, -⟩ := h
        exact h2 ▸ hc
      · split at h
        · simp only [Option.some.injEq, Prod.mk.injEq] at h
          obtain ⟨-, h2, -⟩ := h
          exact h2 ▸ hc
        · split at h
          · simp only [Option.some.injEq, Prod.mk.injEq] at h
            obtain ⟨-, h2, -⟩ := h
            subst h2
            simp only [List.length_append]
            omega
          · exact absurd h (by simp)

/-- C9: `SSL_Write` with `count = 0` succeeds with `*wrote = 0`, calls
neither the crypto engine nor the Transport, and leaves the whole session
state unchanged. -/
theorem C9_write_zero_noop (ctx : SSLContext) (enc : List Byte → EncResult)
    (wt : List TWrite) :
    SSL_Write ctx enc [] wt = some ⟨0, 0, [], [], ctx, wt⟩ := rfl

/-- C7: `SSL_Free` has no guard, so a second call on the same session
performs the single-shot teardown again — the security context and the
credentials handle are each released twice (and the memory freed twice),
while both calls return 0.  This refutes the claimed idempotence and
exhibits the double free. -/
theorem C7_free_twice :
    (SSL_Free (SSL_Free ⟨0, 0, 0⟩).2).2.deleteContextCalls = 2 ∧
    (SSL_Free (SSL_Free ⟨0, 0, 0⟩).2).2.freeCredentialsCalls = 2 ∧
    (SSL_Free (SSL_Free ⟨0, 0, 0⟩).2).2.memFreeCalls = 2 ∧
    (SSL_Free ⟨0, 0, 0⟩).1 = 0 ∧
    (SSL_Free (SSL_Free ⟨0, 0, 0⟩).2).1 = 0 :=
  ⟨rfl, rfl, rfl, rfl, rfl⟩

/-- C5: in `SSL_SendRaw`, a zero-byte `Socket_Write` with data still
pending fails immediately with `ERR_END_OF_STREAM`, consuming no further
Transport responses; whereas when every `Socket_Write` succeeds and
accepts at least one byte, the loop retries until exactly all `count`
bytes have been handed to the socket and returns success. -/
theorem C5_send_zero_eos_partial_retried :
    (∀ (count : Nat) (rest : List TWrite), count ≠ 0 →
      SSL_SendRaw count (⟨0, 0⟩ :: rest) = some (ERR_END_OF_STREAM, 0, rest)) ∧
    (∀ (wt : List TWrite) (count : Nat),
      (∀ w ∈ wt, w.res = 0 ∧ 1 ≤ w.sent) →
      ∀ r t wt', SSL_SendRaw count wt = some (r, t, wt') → r = 0 ∧ t = count) := by
  constructor
  · intro count rest hcount
    cases count with
    | zero => exact absurd rfl hcount
    | succ n => simp [SSL_SendRaw]
  · intro wt
    induction wt with
    | nil =>
      intro count hall r t wt' h
      cases count with
      | zero =>
        simp only [SSL_SendRaw, Option.some.injEq, Prod.mk.injEq] at h
        omega
      | succ n => simp [SSL_SendRaw] at h
    | cons w rest ih =>
      intro count hall r t wt' h
      cases count with
      | zero =>
        simp only [SSL_SendRaw, Option.some.injEq, Prod.mk.injEq] at h
        omega
      | succ n =>
        obtain ⟨hres, hsent⟩ := hall w (List.mem_cons_self w rest)
        rw [SSL_SendRaw] at h
        rw [if_neg (by simp [hres]), if_neg (by omega)] at h
        split at h
        · rename_i hle
          cases hrec : SSL_SendRaw (n + 1 - w.sent) rest with
          | none => rw [hrec] at h; simp at h
          | some o =>
            rw [hrec] at h
            simp only [Option.map_some', Option.some.injEq] at h
            obtain ⟨o1, o2, o3⟩ := o
            obtain ⟨h1, h2⟩ := ih (n + 1 - w.sent) (fun v hv => hall v (List.mem_cons_of_mem w hv)) o1 o2 o3 hrec
            simp only [Prod.mk.injEq] at h
            omega
        · simp at h

/-- Witness for C5 at concrete inputs: a zero-byte send response with 3
bytes pending yields `ERR_END_OF_STREAM` at once, and two partial
responses of 2 and 1 bytes are retried to success with all 3 bytes sent. -/
theorem C5_send_zero_eos_partial_retried_witness :
    SSL_SendRaw 3 [⟨0, 0⟩] = some (ERR_END_OF_STREAM, 0, []) ∧
    ((0 : Nat) = 0 ∧ (3 : Nat) = 3) :=
  ⟨C5_send_zero_eos_partial_retried.1 3 [] (by decide),
   C5_send_zero_eos_partial_retried.2 [⟨0, 2⟩, ⟨0, 1⟩] 3 (by decide) 0 3 [] (by decide)⟩

/-- C3: with the scratch buffer completely full and no complete record
consumable, the next attempt to read more ciphertext fails with
`ERR_INVALID_ARGUMENT` (the spec's `ProtocolViolation`): directly in
`SSL_RecvRaw`, via `SSL_Read` when decryption reports
`SEC_E_INCOMPLETE_MESSAGE`, and via the `SSL_Negotiate` loop when the
handshake reports the same; in each case the session state is returned
unchanged (the buffer is neither grown nor truncated) and no Transport
response is consumed.  The error is a real failure: the code is nonzero. -/
theorem C3_buffer_full_protocol_violation :
    (∀ (ctx : SSLContext) (tt : List TRead),
      ctx.incoming.length = TLS_MAX_PACKET_SIZE →
      SSL_RecvRaw ctx tt = some (ERR_INVALID_ARGUMENT, ctx, tt)) ∧
    (∀ (ctx : SSLContext) (count : Nat) (et : List DecryptResult) (tt : List TRead),
      ctx.decryptedData = none → ctx.incoming.length = TLS_MAX_PACKET_SIZE →
      SSL_Read ctx count (DecryptResult.incomplete :: et) tt =
        some ⟨ERR_INVALID_ARGUMENT, [], ctx, et, tt⟩) ∧
    (∀ (sizes : StreamSizes) (ctx : SSLContext) (r : HSResp) (hs : List HSResp)
        (tt : List TRead) (wt : List TWrite),
      r.status = HSStatus.incomplete → r.extra = none →
      ctx.incoming.length = TLS_MAX_PACKET_SIZE →
      SSL_NegotiateLoop sizes (r :: hs) ctx tt wt =
        some ⟨ERR_INVALID_ARGUMENT, ctx, hs, tt, wt⟩) ∧
    ERR_INVALID_ARGUMENT ≠ 0 := by
  refine ⟨?_, ?_, ?_, by decide⟩
  · intro ctx tt hlen
    unfold SSL_RecvRaw
    rw [if_pos hlen]
  · intro ctx count et tt hwin hlen
    have hfull : SSL_RecvRaw ctx tt = some (ERR_INVALID_ARGUMENT, ctx, tt) := by
      unfold SSL_RecvRaw; rw [if_pos hlen]
    simp only [SSL_Read, hwin]
    rw [SSL_ReadLoop]
    rw [if_pos (by rw [hlen]; decide)]
    simp only [hfull]
    rw [if_pos (by decide)]
  · intro sizes ctx r hs tt wt hst hex hlen
    have hfull : SSL_RecvRaw ctx tt = some (ERR_INVALID_ARGUMENT, ctx, tt) := by
      unfold SSL_RecvRaw; rw [if_pos hlen]
    have hshift : SSL_NegotiateShift ctx r = some ctx := by
      unfold SSL_NegotiateShift
      rw [hex]
      simp [hst]
    rw [SSL_NegotiateLoop]
    simp only [hshift, hst, hfull]
    rw [if_pos (by decide)]

/-- Witness for C3 at a concrete full buffer: `SSL_RecvRaw` and `SSL_Read`
both fail with `ERR_INVALID_ARGUMENT`, leaving the session unchanged. -/
theorem C3_buffer_full_protocol_violation_witness :
    SSL_RecvRaw ⟨⟨0, 0, 0⟩, 0, none, List.replicate TLS_MAX_PACKET_SIZE 0⟩ [] =
      some (ERR_INVALID_ARGUMENT,
        ⟨⟨0, 0, 0⟩, 0, none, List.replicate TLS_MAX_PACKET_SIZE 0⟩, []) ∧
    SSL_Read ⟨⟨0, 0, 0⟩, 0, none, List.replicate TLS_MAX_PACKET_SIZE 0⟩ 4
        [DecryptResult.incomplete] [] =
      some ⟨ERR_INVALID_ARGUMENT, [],
        ⟨⟨0, 0, 0⟩, 0, none, List.replicate TLS_MAX_PACKET_SIZE 0⟩, [], []⟩ :=
  ⟨C3_buffer_full_protocol_violation.1 _ _ (by simp),
   C3_buffer_full_protocol_violation.2.1 _ 4 [] [] rfl (by simp)⟩

/-- C10: a `SSL_Read` that only partially drains the plaintext window
(`count < decryptedSize`) returns exactly `count` bytes, slides the
window forward by those bytes, leaves every other session field — the
scratch buffer, its fill length and the leftover count — unchanged, and
consumes no crypto-engine or Transport response. -/
theorem C10_partial_drain_frame (ctx : SSLContext) (w : List Byte) (count : Nat)
    (et : List DecryptResult) (tt : List TRead)
    (hw : ctx.decryptedData = some w) (hcount : count < w.length) :
    SSL_Read ctx count et tt =
      some ⟨0, w.take count, { ctx with decryptedData := some (w.drop count) }, et, tt⟩ := by
  have hmin : min count w.length = count := Nat.min_eq_left (Nat.le_of_lt hcount)
  simp only [SSL_Read, hw, SSL_ReadDecrypted, Option.getD_some, hmin]
  rw [if_neg (Nat.ne_of_lt hcount)]

/-- Witness for C10 at a concrete session: a window of 3 bytes read with
`count = 1` serves 1 byte and slides the window, touching nothing else. -/
theorem C10_partial_drain_frame_witness :
    SSL_Read ⟨⟨0, 0, 0⟩, 1, some [5, 6, 7], [8, 9]⟩ 1 [] [] =
      some ⟨0, [5], ⟨⟨0, 0, 0⟩, 1, some [6, 7], [8, 9]⟩, [], []⟩ :=
  C10_partial_drain_frame ⟨⟨0, 0, 0⟩, 1, some [5, 6, 7], [8, 9]⟩ [5, 6, 7] 1 [] [] rfl
    (by decide)

/-- C2: draining the window exactly moves the `leftover` undecrypted
bytes to the front of the scratch buffer, sets the fill length to
`leftover`, resets `leftover` to 0 and clears the window; and when the
resulting buffered bytes form a complete record, the next `SSL_Read`
serves its plaintext from one decrypt call without consuming any
Transport response. -/
theorem C2_drain_shifts_leftover_no_transport :
    (∀ (ctx : SSLContext) (w : List Byte) (count : Nat),
      ctx.decryptedData = some w → w.length ≤ count →
      ctx.leftover ≤ ctx.incoming.length →
      SSL_ReadDecrypted ctx count =
        (w,
          { ctx with
            incoming := ctx.incoming.drop (ctx.incoming.length - ctx.leftover),
            leftover := 0,
            decryptedData := none }) ∧
      (SSL_ReadDecrypted ctx count).2.incoming.length = ctx.leftover) ∧
    (∀ (ctx : SSLContext) (count : Nat) (plain : List Byte) (extraLen : Nat)
        (et : List DecryptResult) (tt : List TRead),
      ctx.decryptedData = none → ctx.incoming ≠ [] →
      extraLen ≤ ctx.incoming.length →
      ∃ ctx', SSL_Read ctx count (DecryptResult.ok plain extraLen :: et) tt =
        some ⟨0, plain.take (min count plain.length), ctx', et, tt⟩) := by
  constructor
  · intro ctx w count hw hcount hleft
    have hmin : min count w.length = w.length := Nat.min_eq_right hcount
    constructor
    · simp [SSL_ReadDecrypted, hw, hmin]
    · simp [SSL_ReadDecrypted, hw, hmin]
      omega
  · intro ctx count plain extraLen et tt hwin hne hextra
    have hlen0 : ctx.incoming.length ≠ 0 := by simpa using hne
    refine ⟨(SSL_ReadDecrypted
      { ctx with decryptedData := some plain, leftover := extraLen } count).2, ?_⟩
    simp only [SSL_Read, hwin]
    rw [SSL_ReadLoop]
    rw [if_pos hlen0]
    simp only [if_pos hextra]
    rw [SSL_ReadDecrypted_fst]
    simp

/-- Witness for C2 at concrete sessions: an exact drain with 2 leftover
bytes moves them to the buffer front; afterwards a buffered second record
is served with no Transport response available at all. -/
theorem C2_drain_shifts_leftover_no_transport_witness :
    SSL_ReadDecrypted ⟨⟨0, 0, 0⟩, 2, some [9, 9], [1, 2, 3, 4]⟩ 5 =
      ([9, 9], ⟨⟨0, 0, 0⟩, 0, none, [3, 4]⟩) ∧
    (SSL_Read ⟨⟨0, 0, 0⟩, 0, none, [7]⟩ 1 [DecryptResult.ok [3] 0] []).map
        (fun o => (o.res, o.data, o.et, o.tt)) = some (0, [3], [], []) := by
  constructor
  · exact (C2_drain_shifts_leftover_no_transport.1 _ [9, 9] 5 rfl (by decide) (by decide)).1
  · obtain ⟨ctx', h⟩ := C2_drain_shifts_leftover_no_transport.2
      ⟨⟨0, 0, 0⟩, 0, none, [7]⟩ 1 [3] 0 [] [] rfl (by decide) (by decide)
    rw [h]
    rfl

/-- C6: a `Socket_Read` delivering zero bytes while `SSL_Read` still
needs ciphertext makes the call fail with the dedicated
`ERR_END_OF_STREAM` code — both when the buffer is empty and when a
decrypt just reported `SEC_E_INCOMPLETE_MESSAGE` — and that code is
distinct from 0 and from the generic `ERR_INVALID_ARGUMENT`. -/
theorem C6_zero_transport_read_eos :
    (∀ (ctx : SSLContext) (count : Nat) (et : List DecryptResult) (tt' : List TRead),
      ctx.decryptedData = none → ctx.incoming = [] →
      SSL_Read ctx count et (⟨0, []⟩ :: tt') =
        some ⟨ERR_END_OF_STREAM, [], ctx, et, tt'⟩) ∧
    (∀ (ctx : SSLContext) (count : Nat) (et : List DecryptResult) (tt' : List TRead),
      ctx.decryptedData = none → ctx.incoming ≠ [] →
      ctx.incoming.length < TLS_MAX_PACKET_SIZE →
      SSL_Read ctx count (DecryptResult.incomplete :: et) (⟨0, []⟩ :: tt') =
        some ⟨ERR_END_OF_STREAM, [], ctx, et, tt'⟩) ∧
    ERR_END_OF_STREAM ≠ 0 ∧ ERR_END_OF_STREAM ≠ ERR_INVALID_ARGUMENT := by
  refine ⟨?_, ?_, by decide, by decide⟩
  · intro ctx count et tt' hwin hempty
    have hrecv : SSL_RecvRaw ctx (⟨0, []⟩ :: tt') = some (ERR_END_OF_STREAM, ctx, tt') := by
      unfold SSL_RecvRaw
      rw [if_neg (by rw [hempty]; decide)]
      simp
    simp only [SSL_Read, hwin]
    rcases et with - | ⟨d, et⟩
    · rw [SSL_ReadLoop]
      rw [if_neg (by simp [hempty])]
      simp only [hrecv]
      rw [if_pos (by decide)]
    · cases d <;>
        (rw [SSL_ReadLoop]
         rw [if_neg (by simp [hempty])]
         simp only [hrecv]
         rw [if_pos (by decide)])
  · intro ctx count et tt' hwin hne hlt
    have hlen0 : ctx.incoming.length ≠ 0 := by simpa using hne
    have hrecv : SSL_RecvRaw ctx (⟨0, []⟩ :: tt') = some (ERR_END_OF_STREAM, ctx, tt') := by
      unfold SSL_RecvRaw
      rw [if_neg (Nat.ne_of_lt hlt)]
      simp
    simp only [SSL_Read, hwin]
    rw [SSL_ReadLoop]
    rw [if_pos hlen0]
    simp only [hrecv]
    rw [if_pos (by decide)]

/-- Witness for C6 at a concrete session: an empty buffer and a zero-byte
Transport response produce exactly `ERR_END_OF_STREAM`. -/
theorem C6_zero_transport_read_eos_witness :
    SSL_Read ⟨⟨0, 0, 0⟩, 0, none, []⟩ 3 [] [⟨0, []⟩] =
      some ⟨ERR_END_OF_STREAM, [], ⟨⟨0, 0, 0⟩, 0, none, []⟩, [], []⟩ :=
  C6_zero_transport_read_eos.1 ⟨⟨0, 0, 0⟩, 0, none, []⟩ 3 [] [] rfl rfl

/-- Counterexample to C4 as stated: with a one-byte plaintext window
pending, `SSL_Read` called with `maxBytes = 0` succeeds and delivers 0
bytes, so success does not imply at least one byte delivered. -/
theorem C4_short_read_counterexample :
    ¬ (∀ (ctx : SSLContext) (count : Nat) (et : List DecryptResult) (tt : List TRead)
        (o : ReadOut), SSL_Read ctx count et tt = some o → o.res = 0 →
        1 ≤ o.data.length) := by
  intro h
  have hx := h ⟨⟨0, 0, 0⟩, 0, some [42], []⟩ 0 [] []
    ⟨0, [], ⟨⟨0, 0, 0⟩, 0, some [42], []⟩, [], []⟩ (by decide) rfl
  exact absurd hx (by decide)

/-- Any success of the `SSL_Read` loop delivers at least one byte,
provided the caller asks for at least one byte and every decrypt success
carries non-empty plaintext (and failing decrypt statuses are nonzero,
as `SEC_E_OK` cannot reach the failure branch in C). -/
theorem SSL_ReadLoop_pos (count : Nat) (hcount : 1 ≤ count) :
    ∀ (fuel : Nat) (ctx : SSLContext) (et : List DecryptResult) (tt : List TRead)
      (o : ReadOut),
      (∀ plain extraLen, DecryptResult.ok plain extraLen ∈ et → plain ≠ []) →
      (∀ code, DecryptResult.fail code ∈ et → code ≠ 0) →
      SSL_ReadLoop fuel ctx count et tt = some o → o.res = 0 → 1 ≤ o.data.length := by
  intro fuel
  induction fuel with
  | zero =>
    intro ctx et tt o _ _ h _
    rw [SSL_ReadLoop] at h
    exact absurd h (by simp)
  | succ n ih =>
    intro ctx et tt o hok hfail h hres
    rcases et with - | ⟨d, et⟩
    · rw [SSL_ReadLoop] at h
      split at h
      · exact absurd h (by simp)
      · split at h
        · exact absurd h (by simp)
        · rename_i res ctx' tt' heq
          split at h
          · rename_i hr0
            injection h with h
            subst h
            simp only at hres
            exact absurd hres hr0
          · exact ih ctx' [] tt' o hok hfail h hres
    · cases d with
      | ok plain extraLen =>
        rw [SSL_ReadLoop] at h
        split at h
        · split at h
          · injection h with h
            subst h
            simp only [SSL_ReadDecrypted_fst, Option.getD_some, List.length_take]
            have hp : 0 < plain.length :=
              List.length_pos.mpr (hok plain extraLen (List.mem_cons_self _ _))
            omega
          · exact absurd h (by simp)
        · split at h
          · exact absurd h (by simp)
          · rename_i res ctx' tt' heq
            split at h
            · rename_i hr0
              injection h with h
              subst h
              simp only at hres
              exact absurd hres hr0
            · exact ih ctx' _ tt' o hok hfail h hres
      | incomplete =>
        rw [SSL_ReadLoop] at h
        split at h
        · split at h
          · exact absurd h (by simp)
          · rename_i res ctx' tt' heq
            split at h
            · rename_i hr0
              injection h with h
              subst h
              simp only at hres
              exact absurd hres hr0
            · exact ih ctx' et tt' o
                (fun p e hm => hok p e (List.mem_cons_of_mem _ hm))
                (fun c hm => hfail c (List.mem_cons_of_mem _ hm)) h hres
        · split at h
          · exact absurd h (by simp)
          · rename_i res ctx' tt' heq
            split at h
            · rename_i hr0
              injection h with h
              subst h
              simp only at hres
              exact absurd hres hr0
            · exact ih ctx' _ tt' o hok hfail h hres
      | fail code =>
        rw [SSL_ReadLoop] at h
        split at h
        · injection h with h
          subst h
          simp only at hres
          exact absurd hres (hfail code (List.mem_cons_self _ _))
        · split at h
          · exact absurd h (by simp)
          · rename_i res ctx' tt' heq
            split at h
            · rename_i hr0
              injection h with h
              subst h
              simp only at hres
              exact absurd hres hr0
            · exact ih ctx' _ tt' o hok hfail h hres

/-- C4 amended: if at least one byte is requested, any pre-existing
plaintext window is non-empty, and every successful decrypt yields at
least one plaintext byte, then a successful `SSL_Read` delivers at least
one byte. -/
theorem C4_read_min_one_amended (ctx : SSLContext) (count : Nat)
    (et : List DecryptResult) (tt : List TRead) (o : ReadOut)
    (hcount : 1 ≤ count)
    (hwin : ∀ w, ctx.decryptedData = some w → w ≠ [])
    (hok : ∀ plain extraLen, DecryptResult.ok plain extraLen ∈ et → plain ≠ [])
    (hfail : ∀ code, DecryptResult.fail code ∈ et → code ≠ 0)
    (h : SSL_Read ctx count et tt = some o) (hres : o.res = 0) :
    1 ≤ o.data.length := by
  cases hw : ctx.decryptedData with
  | none =>
    simp only [SSL_Read, hw] at h
    exact SSL_ReadLoop_pos count hcount _ ctx et tt o hok hfail h hres
  | some w =>
    simp only [SSL_Read, hw, Option.some.injEq] at h
    subst h
    simp only [SSL_ReadDecrypted_fst, hw, Option.getD_some, List.length_take]
    have hp : 0 < w.length := List.length_pos.mpr (hwin w hw)
    omega

/-- Witness for the amended C4 at a concrete session: a one-byte window
read with `maxBytes = 1` delivers one byte. -/
theorem C4_read_min_one_amended_witness :
    1 ≤ (ReadOut.mk 0 [42] ⟨⟨0, 0, 0⟩, 0, none, []⟩ [] []).data.length :=
  C4_read_min_one_amended ⟨⟨0, 0, 0⟩, 0, some [42], []⟩ 1 [] []
    ⟨0, [42], ⟨⟨0, 0, 0⟩, 0, none, []⟩, [], []⟩ (by decide)
    (by intro w hw; injection hw with h; subst h; decide)
    (fun p e hm => absurd hm (List.not_mem_nil _))
    (fun c hm => absurd hm (List.not_mem_nil _))
    (by decide) rfl

/-- `SSL_WriteLoop` never mutates the session: the loop only reads
`sizes.cbMaximumMessage` and works through the Transport. -/
theorem SSL_WriteLoop_ctx :
    ∀ (fuel : Nat) (ctx : SSLContext) (enc : List Byte → EncResult) (data : List Byte)
      (wt : List TWrite) (o : WriteOut),
      SSL_WriteLoop fuel ctx enc data wt = some o → o.ctx = ctx := by
  intro fuel
  induction fuel with
  | zero =>
    intro ctx enc data wt o h
    rw [SSL_WriteLoop] at h
    split at h
    · injection h with h
      subst h
      rfl
    · exact absurd h (by simp)
  | succ n ih =>
    intro ctx enc data wt o h
    rw [SSL_WriteLoop] at h
    split at h
    · injection h with h
      subst h
      rfl
    · split at h
      · exact absurd h (by simp)
      · split at h
        · injection h with h
          subst h
          rfl
        · split at h
          · exact absurd h (by simp)
          · rename_i o' hrec
            injection h with h
            subst h
            exact ih ctx enc _ _ o' hrec

/-- A successful `SSL_WriteLoop` run wrote everything, its chunks
concatenate to the input, each chunk respects the negotiated maximum, and
each chunk was encrypted to exactly the record handed to `SSL_SendRaw`. -/
theorem SSL_WriteLoop_success (enc : List Byte → EncResult)
    (henc : ∀ chunk, enc chunk ≠ EncResult.fail 0) :
    ∀ (fuel : Nat) (ctx : SSLContext) (data : List Byte) (wt : List TWrite) (o : WriteOut),
      SSL_WriteLoop fuel ctx enc data wt = some o → o.res = 0 →
      o.wrote = data.length ∧ o.chunks.flatten = data ∧
      (∀ c ∈ o.chunks, c.length ≤ ctx.sizes.cbMaximumMessage) ∧
      o.chunks.map (encRecord enc) = o.records.map some := by
  intro fuel
  induction fuel with
  | zero =>
    intro ctx data wt o h hres
    rw [SSL_WriteLoop] at h
    split at h
    · rename_i hd
      injection h with h
      subst h
      subst hd
      simp
    · exact absurd h (by simp)
  | succ n ih =>
    intro ctx data wt o h hres
    rw [SSL_WriteLoop] at h
    split at h
    · rename_i hd
      injection h with h
      subst h
      subst hd
      simp
    · rename_i hd
      split at h
      · exact absurd h (by simp)
      · rename_i res recs wt' hchunk
        split at h
        · rename_i hr0
          injection h with h
          subst h
          simp only at hres
          exact absurd hres hr0
        · rename_i hr0
          split at h
          · exact absurd h (by simp)
          · rename_i o' hrec
            injection h with h
            subst h
            simp only at hres
            obtain ⟨ih1, ih2, ih3, ih4⟩ := ih ctx _ wt' o' hrec hres
            have hm1 : min data.length ctx.sizes.cbMaximumMessage ≤ data.length :=
              Nat.min_le_left _ _
            have hm2 : min data.length ctx.sizes.cbMaximumMessage ≤
                ctx.sizes.cbMaximumMessage :=
              Nat.min_le_right _ _
            have hres2 : res = 0 := by omega
            subst hres2
            cases he : enc (data.take (min data.length ctx.sizes.cbMaximumMessage)) with
            | fail code =>
              simp only [SSL_WriteChunk, he, Option.some.injEq, Prod.mk.injEq] at hchunk
              obtain ⟨hc1, -, -⟩ := hchunk
              exact absurd (hc1 ▸ he) (henc _)
            | ok hh cc tl =>
              simp only [SSL_WriteChunk, he] at hchunk
              cases hs : SSL_SendRaw (hh ++ cc ++ tl).length wt with
              | none =>
                rw [hs] at hchunk
                simp at hchunk
              | some s =>
                rw [hs] at hchunk
                simp only [Option.map_some', Option.some.injEq, Prod.mk.injEq] at hchunk
                obtain ⟨-, hrecs, -⟩ := hchunk
                subst hrecs
                refine ⟨?_, ?_, ?_, ?_⟩
                · simp only [List.length_drop] at ih1
                  simp only
                  omega
                · show data.take _ ++ o'.chunks.flatten = data
                  rw [ih2]
                  exact List.take_append_drop _ _
                · intro c hc
                  rcases List.mem_cons.mp hc with hc | hc
                  · subst hc
                    simp only [List.length_take]
                    omega
                  · exact ih3 c hc
                · simp only [List.map_cons, List.singleton_append, encRecord, he, ih4]

/-- C1: a successful `SSL_Write` reports `*wrote = count` (no short
write), having split the input into consecutive chunks that concatenate
back to the input, each of length at most `sizes.cbMaximumMessage`, and
each chunk was encrypted and handed to `SSL_SendRaw` as its single
contiguous header+ciphertext+trailer record.  (The hypothesis on `enc`
excludes the contradictory oracle response `fail 0`, which has no C
counterpart since the failure branch is taken exactly on nonzero
statuses.) -/
theorem C1_write_transmits_all_chunked (ctx : SSLContext) (enc : List Byte → EncResult)
    (data : List Byte) (wt : List TWrite) (o : WriteOut)
    (henc : ∀ chunk, enc chunk ≠ EncResult.fail 0)
    (h : SSL_Write ctx enc data wt = some o) (hres : o.res = 0) :
    o.wrote = data.length ∧
    o.chunks.flatten = data ∧
    (∀ c ∈ o.chunks, c.length ≤ ctx.sizes.cbMaximumMessage) ∧
    o.chunks.map (encRecord enc) = o.records.map some :=
  SSL_WriteLoop_success enc henc data.length ctx data wt o h hres

/-- Witness for C1 at a concrete run: 4 bytes with a 3-byte negotiated
maximum become two chunks of 3 and 1 bytes, each sent as one record. -/
theorem C1_write_transmits_all_chunked_witness :
    (WriteOut.mk 0 4 [[10, 11, 12], [13]] [[1, 10, 11, 12, 2], [1, 13, 2]]
        ⟨⟨0, 0, 3⟩, 0, none, []⟩ []).wrote = ([10, 11, 12, 13] : List Byte).length ∧
    ([[10, 11, 12], [13]] : List (List Byte)).flatten = [10, 11, 12, 13] ∧
    (∀ c ∈ ([[10, 11, 12], [13]] : List (List Byte)),
      c.length ≤ (SSLContext.mk ⟨0, 0, 3⟩ 0 none []).sizes.cbMaximumMessage) ∧
    ([[10, 11, 12], [13]] : List (List Byte)).map
        (encRecord (fun c => EncResult.ok [1] c [2])) =
      ([[1, 10, 11, 12, 2], [1, 13, 2]] : List (List Byte)).map some :=
  C1_write_transmits_all_chunked ⟨⟨0, 0, 3⟩, 0, none, []⟩
    (fun c => EncResult.ok [1] c [2]) [10, 11, 12, 13] [⟨0, 5⟩, ⟨0, 3⟩]
    ⟨0, 4, [[10, 11, 12], [13]], [[1, 10, 11, 12, 2], [1, 13, 2]],
      ⟨⟨0, 0, 3⟩, 0, none, []⟩, []⟩
    (fun chunk h => EncResult.noConfusion h) (by decide) rfl

/-- The `SSL_Read` loop keeps the fill length within capacity. -/
theorem SSL_ReadLoop_len :
    ∀ (fuel : Nat) (ctx : SSLContext) (count : Nat) (et : List DecryptResult)
      (tt : List TRead) (o : ReadOut),
      ctx.incoming.length ≤ TLS_MAX_PACKET_SIZE →
      SSL_ReadLoop fuel ctx count et tt = some o →
      o.ctx.incoming.length ≤ TLS_MAX_PACKET_SIZE := by
  intro fuel
  induction fuel with
  | zero =>
    intro ctx count et tt o _ h
    rw [SSL_ReadLoop] at h
    exact absurd h (by simp)
  | succ n ih =>
    intro ctx count et tt o hc h
    rcases et with - | ⟨d, et⟩
    · rw [SSL_ReadLoop] at h
      split at h
      · exact absurd h (by simp)
      · split at h
        · exact absurd h (by simp)
        · rename_i res ctx' tt' heq
          have hc' := SSL_RecvRaw_len ctx tt res ctx' tt' hc heq
          split at h
          · injection h with h
            subst h
            exact hc'
          · exact ih ctx' count [] tt' o hc' h
    · cases d with
      | ok plain extraLen =>
        rw [SSL_ReadLoop] at h
        split at h
        · split at h
          · injection h with h
            subst h
            exact le_trans (SSL_ReadDecrypted_len _ _) hc
          · exact absurd h (by simp)
        · split at h
          · exact absurd h (by simp)
          · rename_i res ctx' tt' heq
            have hc' := SSL_RecvRaw_len ctx tt res ctx' tt' hc heq
            split at h
            · injection h with h
              subst h
              exact hc'
            · exact ih ctx' count _ tt' o hc' h
      | incomplete =>
        rw [SSL_ReadLoop] at h
        split at h
        · split at h
          · exact absurd h (by simp)
          · rename_i res ctx' tt' heq
            have hc' := SSL_RecvRaw_len ctx tt res ctx' tt' hc heq
            split at h
            · injection h with h
              subst h
              exact hc'
            · exact ih ctx' count et tt' o hc' h
        · split at h
          · exact absurd h (by simp)
          · rename_i res ctx' tt' heq
            have hc' := SSL_RecvRaw_len ctx tt res ctx' tt' hc heq
            split at h
            · injection h with h
              subst h
              exact hc'
            · exact ih ctx' count _ tt' o hc' h
      | fail code =>
        rw [SSL_ReadLoop] at h
        split at h
        · injection h with h
          subst h
          exact hc
        · split at h
          · exact absurd h (by simp)
          · rename_i res ctx' tt' heq
            have hc' := SSL_RecvRaw_len ctx tt res ctx' tt' hc heq
            split at h
            · injection h with h
              subst h
              exact hc'
            · exact ih ctx' count _ tt' o hc' h

/-- `SSL_Read` keeps the fill length within capacity. -/
theorem SSL_Read_len (ctx : SSLContext) (count : Nat) (et : List DecryptResult)
    (tt : List TRead) (o : ReadOut)
    (hc : ctx.incoming.length ≤ TLS_MAX_PACKET_SIZE)
    (h : SSL_Read ctx count et tt = some o) :
    o.ctx.incoming.length ≤ TLS_MAX_PACKET_SIZE := by
  cases hw : ctx.decryptedData with
  | some w =>
    simp only [SSL_Read, hw, Option.some.injEq] at h
    subst h
    exact le_trans (SSL_ReadDecrypted_len _ _) hc
  | none =>
    simp only [SSL_Read, hw] at h
    exact SSL_ReadLoop_len _ ctx count et tt o hc h

/-- The handshake leftover shift never lengthens the scratch buffer. -/
theorem SSL_NegotiateShift_len (ctx : SSLContext) (r : HSResp) (ctx1 : SSLContext)
    (h : SSL_NegotiateShift ctx r = some ctx1) :
    ctx1.incoming.length ≤ ctx.incoming.length := by
  unfold SSL_NegotiateShift at h
  split at h
  · split at h
    · injection h with h
      subst h
      simp only [List.length_drop]
      omega
    · exact absurd h (by simp)
  · split at h
    · injection h with h
      subst h
      exact le_refl _
    · injection h with h
      subst h
      simp

/-- The `SSL_Negotiate` loop keeps the fill length within capacity. -/
theorem SSL_NegotiateLoop_len (sizes : StreamSizes) :
    ∀ (hs : List HSResp) (ctx : SSLContext) (tt : List TRead) (wt : List TWrite)
      (o : NegotiateOut),
      ctx.incoming.length ≤ TLS_MAX_PACKET_SIZE →
      SSL_NegotiateLoop sizes hs ctx tt wt = some o →
      o.ctx.incoming.length ≤ TLS_MAX_PACKET_SIZE := by
  intro hs
  induction hs with
  | nil =>
    intro ctx tt wt o _ h
    rw [SSL_NegotiateLoop] at h
    exact absurd h (by simp)
  | cons r hs ih =>
    intro ctx tt wt o hc h
    rw [SSL_NegotiateLoop] at h
    split at h
    · exact absurd h (by simp)
    · rename_i ctx1 hshift
      have hc1 : ctx1.incoming.length ≤ TLS_MAX_PACKET_SIZE :=
        le_trans (SSL_NegotiateShift_len ctx r ctx1 hshift) hc
      split at h
      · injection h with h
        subst h
        exact hc1
      · split at h
        · exact absurd h (by simp)
        · rename_i res s wt' hsend
          split at h
          · injection h with h
            subst h
            exact hc1
          · exact ih ctx1 tt wt' o hc1 h
      · injection h with h
        subst h
        exact hc1
      · split at h
        · exact absurd h (by simp)
        · rename_i res ctx2 tt' hrecv
          have hc2 := SSL_RecvRaw_len ctx1 tt res ctx2 tt' hc1 hrecv
          split at h
          · injection h with h
            subst h
            exact hc2
          · exact ih ctx2 tt' wt o hc2 h

/-- Every single operation keeps the fill length within capacity. -/
theorem runOp_len (ctx : SSLContext) (op : Op) (ctx' : SSLContext)
    (hc : ctx.incoming.length ≤ TLS_MAX_PACKET_SIZE)
    (h : runOp ctx op = some ctx') :
    ctx'.incoming.length ≤ TLS_MAX_PACKET_SIZE := by
  cases op with
  | read count et tt =>
    simp only [runOp] at h
    cases hr : SSL_Read ctx count et tt with
    | none =>
      rw [hr] at h
      exact absurd h (by simp)
    | some o =>
      rw [hr] at h
      simp only [Option.map_some', Option.some.injEq] at h
      subst h
      exact SSL_Read_len ctx count et tt o hc hr
  | write enc data wt =>
    simp only [runOp] at h
    cases hr : SSL_Write ctx enc data wt with
    | none =>
      rw [hr] at h
      exact absurd h (by simp)
    | some o =>
      rw [hr] at h
      simp only [Option.map_some', Option.some.injEq] at h
      subst h
      rw [SSL_WriteLoop_ctx data.length ctx enc data wt o hr]
      exact hc
  | negotiate sizes hs tt wt =>
    simp only [runOp] at h
    cases hr : SSL_NegotiateLoop sizes hs ctx tt wt with
    | none =>
      rw [hr] at h
      exact absurd h (by simp)
    | some o =>
      rw [hr] at h
      simp only [Option.map_some', Option.some.injEq] at h
      subst h
      exact SSL_NegotiateLoop_len sizes hs ctx tt wt o hc hr

/-- Any operation sequence keeps the fill length within capacity. -/
theorem runOps_len :
    ∀ (ops : List Op) (ctx ctx' : SSLContext),
      ctx.incoming.length ≤ TLS_MAX_PACKET_SIZE →
      runOps ctx ops = some ctx' →
      ctx'.incoming.length ≤ TLS_MAX_PACKET_SIZE := by
  intro ops
  induction ops with
  | nil =>
    intro ctx ctx' hc h
    simp only [runOps, Option.some.injEq] at h
    exact h ▸ hc
  | cons op ops ih =>
    intro ctx ctx' hc h
    rw [runOps] at h
    split at h
    · exact absurd h (by simp)
    · rename_i c heq
      exact ih c ctx' (runOp_len ctx op c hc heq) h

/-- C8: from the zeroed initial session, every state reachable by any
sequence of `Negotiate`, `Read` and `Write` operations keeps the scratch
buffer fill length `bufferLen` (here `incoming.length`, with `0 <=
bufferLen` holding by type) at most the fixed capacity
`TLS_MAX_PACKET_SIZE`; the buffer itself is a fixed-size array and is
never resized. -/
theorem C8_buffer_capacity_invariant (ops : List Op) (ctx' : SSLContext)
    (h : runOps SSL_initialCtx ops = some ctx') :
    ctx'.incoming.length ≤ TLS_MAX_PACKET_SIZE :=
  runOps_len ops SSL_initialCtx ctx' (by decide) h

/-- Witness for C8: one concrete `Read` that refills from the Transport
and decrypts lands in a state within capacity. -/
theorem C8_buffer_capacity_invariant_witness :
    (SSLContext.mk ⟨0, 0, 0⟩ 0 none []).incoming.length ≤ TLS_MAX_PACKET_SIZE :=
  C8_buffer_capacity_invariant [Op.read 1 [DecryptResult.ok [3] 0] [⟨0, [7]⟩]]
    ⟨⟨0, 0, 0⟩, 0, none, []⟩ (by decide)
